import Mathlib

/-!
Verification of the PSK payload cryptography core of librist
(`src/crypto/psk.c`) against its natural-language specification.

The state machine, rotation logic, IV construction and buffer transforms are
embedded faithfully from `psk.c`.  The AES block cipher, the PBKDF2 key
derivation and the library CTR drivers live outside the sources at hand, so
they are injected as abstract functions (a `Backend`), and the CTR driver is
modelled from the spec (§4.4): keystream blocks are the block cipher applied
to the big-endian incremented IV, XORed onto the payload.
-/

namespace LibristPSK

/-- The modulus of `uint32_t` machine arithmetic. -/
def UINT32_MOD : Nat := 2 ^ 32

/-- AES block size in bytes, as in `psk.c`. -/
def AES_BLOCK_SIZE : Nat := 16

/-- Modelled from the spec: the size of the fixed `password` buffer of
`struct rist_key` (the struct is declared outside the sources at hand; the
spec bounds the stored password at 128 bytes).  `set_passphrase` accepts at
most `PASSWORD_BUFSIZE - 1` bytes, leaving room for the terminator. -/
def PASSWORD_BUFSIZE : Nat := 128

/-- Modelled from the spec: the AES and PBKDF2 backends (mbedtls / nettle /
fastpbkdf2 / linux-crypto) are selected at build time and live outside the
sources at hand.  The spec (§9) describes the capability set as "derive raw
key from (password, salt, length)" and "AES-CTR a buffer under a preloaded
key"; we inject the key-derivation function and the raw block-encryption
primitive, and build the CTR driver over them. -/
structure Backend where
  kdf : List Nat → List Nat → Nat → List Nat
  enc : List Nat → List Nat → List Nat

/-- The `struct rist_key` state (fields from the spec's data model §3; the
struct declaration itself is outside the sources at hand).  `password` is the
raw byte content of the fixed C `char` array (C-string semantics: the
effective password ends at the first 0 byte); `cipher_key` models the AES key
schedule currently loaded into the cipher state (empty = uninitialised). -/
structure rist_key where
  password : List Nat
  key_size : Nat
  key_rotation : Nat
  gre_nonce : Nat
  used_times : Nat
  bad_decryption : Bool
  bad_count : Nat
  cipher_key : List Nat
  deriving Repr, DecidableEq

/-- C `strlen` semantics: the bytes of a buffer before the first 0 byte. -/
def effPassword (p : List Nat) : List Nat := p.takeWhile (fun b => b ≠ 0)

/-- C `strcpy(dest, src)`: the source's NUL-terminated content (terminator
included) overwrites the head of the destination buffer; the tail of the
destination keeps its old bytes. -/
def strcpy_into (dest src : List Nat) : List Nat :=
  let s := effPassword src ++ [0]
  s ++ dest.drop s.length

/-- The four bytes of a `uint32_t` object as laid out in memory (native byte
order, modelled as little-endian; the code only requires determinism). -/
def bytes4 (n : Nat) : List Nat :=
  [n % 256, n / 256 % 256, n / 256 ^ 2 % 256, n / 256 ^ 3 % 256]

/-- Big-endian serialisation of `n` into `w` bytes. -/
def beBytes : Nat → Nat → List Nat
  | 0, _ => []
  | w + 1, n => beBytes w (n / 256) ++ [n % 256]

/-- Big-endian value of a byte list. -/
def beVal (l : List Nat) : Nat := l.foldl (fun a b => a * 256 + b) 0

/-- The raw AES key produced by PBKDF2-HMAC-SHA256 in
`_librist_crypto_aes_key`: password up to its terminator, the 4-byte nonce
object as salt, `key_size / 8` output bytes. -/
def derive_raw_key (B : Backend) (key : rist_key) : List Nat :=
  B.kdf (effPassword key.password) (bytes4 key.gre_nonce) (key.key_size / 8)

/-- `_librist_crypto_aes_key` (psk.c:80-148): derives the raw key from
`(password, gre_nonce)`, installs it as the cipher encryption key, and resets
`used_times` to 0.  No other field is touched. -/
def _librist_crypto_aes_key (B : Backend) (key : rist_key) : rist_key :=
  { key with cipher_key := derive_raw_key B key, used_times := 0 }

/-- IV construction (psk.c:152-157): a 16-byte zero block with the 4-byte
`seq_nbe` object copied at offset 0 when `gre_version == 1`, else offset 12. -/
def build_iv (seq_nbe gre_version : Nat) : List Nat :=
  let copy_offset := if gre_version = 1 then 0 else 12
  List.replicate copy_offset 0 ++ bytes4 seq_nbe ++
    List.replicate (12 - copy_offset) 0

/-- Modelled from the spec (§4.4): the library CTR drivers
(`mbedtls_aes_crypt_ctr` / `nettle_ctr_crypt` / `aes_decrypt_ctr`) are outside
the sources at hand.  Block `i` of the keystream encrypts the IV treated as a
big-endian 128-bit counter incremented by `i`; the keystream is truncated to
the payload length. -/
def counter_block (iv : List Nat) (i : Nat) : List Nat :=
  beBytes 16 ((beVal iv + i) % 2 ^ 128)

/-- The CTR keystream for a given cipher key, IV and length (spec §4.4). -/
def keystream (B : Backend) (ck iv : List Nat) (len : Nat) : List Nat :=
  (((List.range ((len + 15) / 16)).map
      (fun i => B.enc ck (counter_block iv i))).flatten).take len

/-- Byte-wise XOR of a buffer against a keystream. -/
def xorBytes (buf ks : List Nat) : List Nat :=
  List.zipWith (fun a b => a ^^^ b) buf ks

/-- `_librist_crypto_psk_aes_ctr` (psk.c:150-188): builds the IV from
`(seq_nbe, gre_version)`, CTR-transforms the input buffer under the current
cipher key, and increments `used_times` (uint32 wrap-around). -/
def _librist_crypto_psk_aes_ctr (B : Backend) (key : rist_key)
    (seq_nbe gre_version : Nat) (inbuf : List Nat) : rist_key × List Nat :=
  let iv := build_iv seq_nbe gre_version
  let out := xorBytes inbuf (keystream B key.cipher_key iv inbuf.length)
  ({ key with used_times := (key.used_times + 1) % UINT32_MOD }, out)

/-- The nonce-change handling at the head of `_librist_crypto_psk_decrypt`
(psk.c:195-200): on a changed nonce, assign it, re-derive, and clear the
diagnostic flags; otherwise leave the state alone. -/
def decrypt_update_key (B : Backend) (key : rist_key) (nonce : Nat) :
    rist_key :=
  if nonce ≠ key.gre_nonce then
    let k := _librist_crypto_aes_key B { key with gre_nonce := nonce }
    { k with bad_decryption := false, bad_count := 0 }
  else key

/-- `_librist_crypto_psk_decrypt` (psk.c:190-206).  `REUSE` stands for
`RIST_AES_KEY_REUSE_TIMES` (declared outside the sources at hand; the spec
fixes no numeric value, only its role as the hard cap).  The function returns
the new state and the contents of `outbuf`; a call that does not transform
returns `outbuf0` unchanged (the C function writes nothing). -/
def _librist_crypto_psk_decrypt (B : Backend) (REUSE : Nat) (key : rist_key)
    (nonce seq_nbe gre_version : Nat) (inbuf outbuf0 : List Nat) :
    rist_key × List Nat :=
  if nonce = 0 then (key, outbuf0)
  else
    let k := decrypt_update_key B key nonce
    if k.used_times > REUSE then (k, outbuf0)
    else _librist_crypto_psk_aes_ctr B k seq_nbe gre_version inbuf

/-- The rotation predicate of `_librist_crypto_psk_encrypt` (psk.c:210),
with uint32 arithmetic on `used_times + 1`. -/
def must_rotate (REUSE : Nat) (key : rist_key) : Bool :=
  key.gre_nonce == 0 || (key.used_times + 1) % UINT32_MOD > REUSE ||
    (key.key_rotation > 0 && key.used_times ≥ key.key_rotation)

/-- The `do { gre_nonce = prand_u32(); } while (!gre_nonce)` rejection loop
(psk.c:211-213, 226-228): draws from the injected random stream until a
non-zero `uint32_t` appears; `none` models a stream that never produces one
(on which the C loop would spin forever). -/
def draw_nonzero : List Nat → Option (Nat × List Nat)
  | [] => none
  | v :: rest => if v % UINT32_MOD = 0 then draw_nonzero rest
                 else some (v % UINT32_MOD, rest)

/-- The rotation step of `_librist_crypto_psk_encrypt` (psk.c:210-215): when
`must_rotate`, draw a fresh non-zero nonce and re-derive; otherwise the state
and random stream pass through unchanged. -/
def encrypt_rotate (B : Backend) (REUSE : Nat) (key : rist_key)
    (rng : List Nat) : Option (rist_key × List Nat) :=
  if must_rotate REUSE key then
    match draw_nonzero rng with
    | none => none
    | some (n, rest) =>
        some (_librist_crypto_aes_key B { key with gre_nonce := n }, rest)
  else some (key, rng)

/-- `_librist_crypto_psk_encrypt` (psk.c:208-219): possibly rotate, then
CTR-transform.  Returns the new state, the output buffer and the remaining
random stream. -/
def _librist_crypto_psk_encrypt (B : Backend) (REUSE : Nat) (key : rist_key)
    (seq_nbe gre_version : Nat) (inbuf rng : List Nat) :
    Option (rist_key × List Nat × List Nat) :=
  match encrypt_rotate B REUSE key rng with
  | none => none
  | some (k1, rest) =>
      let r := _librist_crypto_psk_aes_ctr B k1 seq_nbe gre_version inbuf
      some (r.1, r.2, rest)

/-- `_librist_crypto_psk_rist_key_init` (psk.c:36-49): `strcpy` the password,
store `key_size` and `rotation`, initialise an empty cipher state, and return
0.  The C function performs no validation of any kind (`//TODO: handle
failures?`) and touches no other field. -/
def _librist_crypto_psk_rist_key_init (key : rist_key)
    (key_size rotation : Nat) (password : List Nat) : rist_key × Int :=
  ({ key with password := strcpy_into key.password password,
              key_size := key_size, key_rotation := rotation,
              cipher_key := [] }, 0)

/-- `_librist_crypto_psk_rist_key_clone` (psk.c:65-78): `strcpy` the source's
password into the destination, copy `key_size` and `key_rotation`, initialise
a fresh cipher state, return 0.  `gre_nonce`, `used_times` and the diagnostic
fields of the destination are not assigned. -/
def _librist_crypto_psk_rist_key_clone (key_in key_out : rist_key) :
    rist_key × Int :=
  ({ key_out with password := strcpy_into key_out.password key_in.password,
                  key_size := key_in.key_size,
                  key_rotation := key_in.key_rotation,
                  cipher_key := [] }, 0)

/-- `_librist_crypto_psk_set_passphrase` (psk.c:221-231): reject a passphrase
longer than `sizeof(password) - 1`; otherwise `memcpy` exactly
`passphrase.length` bytes over the head of the password buffer (no
terminator is written), draw a fresh non-zero nonce, re-derive, return 0. -/
def _librist_crypto_psk_set_passphrase (B : Backend) (key : rist_key)
    (passphrase rng : List Nat) : Option (rist_key × Int × List Nat) :=
  if passphrase.length > PASSWORD_BUFSIZE - 1 then some (key, -1, rng)
  else
    match draw_nonzero rng with
    | none => none
    | some (n, rest) =>
        let k := { key with
                   password := passphrase ++ key.password.drop passphrase.length }
        some (_librist_crypto_aes_key B { k with gre_nonce := n }, 0, rest)

/-! ### General lemmas about the embedded definitions -/

theorem xorBytes_length (buf ks : List Nat) :
    (xorBytes buf ks).length = min buf.length ks.length := by
  simp [xorBytes]

theorem xorBytes_cancel : ∀ buf ks : List Nat, buf.length ≤ ks.length →
    xorBytes (xorBytes buf ks) ks = buf
  | [], _, _ => rfl
  | a :: buf, [], h => by simp at h
  | a :: buf, k :: ks, h => by
      simp only [xorBytes, List.zipWith_cons_cons] at *
      refine congrArg₂ (· :: ·) (Nat.xor_cancel_right k a) ?_
      exact xorBytes_cancel buf ks (by simpa using h)

theorem keystream_length (B : Backend)
    (hB : ∀ ck blk, (B.enc ck blk).length = 16) (ck iv : List Nat)
    (len : Nat) : (keystream B ck iv len).length = len := by
  unfold keystream
  rw [List.length_take]
  have hfl : (((List.range ((len + 15) / 16)).map
      (fun i => B.enc ck (counter_block iv i))).flatten).length
      = 16 * ((len + 15) / 16) := by
    rw [List.length_flatten, List.map_map]
    have : ((List.range ((len + 15) / 16)).map
        (List.length ∘ fun i => B.enc ck (counter_block iv i)))
        = (List.range ((len + 15) / 16)).map (fun _ => 16) := by
      refine List.map_congr_left ?_
      intro i _
      simpa using hB ck (counter_block iv i)
    rw [this, List.map_const', List.sum_replicate, List.length_range,
      smul_eq_mul, Nat.mul_comm]
  rw [hfl]
  have h1 := Nat.div_add_mod (len + 15) 16
  have h2 : (len + 15) % 16 < 16 := Nat.mod_lt _ (by norm_num)
  omega

theorem aes_ctr_out (B : Backend) (key : rist_key) (seq ver : Nat)
    (inbuf : List Nat) :
    (_librist_crypto_psk_aes_ctr B key seq ver inbuf).2 =
      xorBytes inbuf
        (keystream B key.cipher_key (build_iv seq ver) inbuf.length) := rfl

theorem aes_ctr_state (B : Backend) (key : rist_key) (seq ver : Nat)
    (inbuf : List Nat) :
    (_librist_crypto_psk_aes_ctr B key seq ver inbuf).1 =
      { key with used_times := (key.used_times + 1) % UINT32_MOD } := rfl

theorem aes_ctr_out_length (B : Backend)
    (hB : ∀ ck blk, (B.enc ck blk).length = 16) (key : rist_key)
    (seq ver : Nat) (inbuf : List Nat) :
    ((_librist_crypto_psk_aes_ctr B key seq ver inbuf).2).length
      = inbuf.length := by
  rw [aes_ctr_out, xorBytes_length,
    keystream_length B hB key.cipher_key (build_iv seq ver) inbuf.length]
  omega

theorem aes_ctr_self_inverse (B : Backend)
    (hB : ∀ ck blk, (B.enc ck blk).length = 16) (key key2 : rist_key)
    (hck : key2.cipher_key = key.cipher_key) (seq ver : Nat)
    (buf : List Nat) :
    (_librist_crypto_psk_aes_ctr B key2 seq ver
      ((_librist_crypto_psk_aes_ctr B key seq ver buf).2)).2 = buf := by
  have hks := keystream_length B hB key.cipher_key (build_iv seq ver)
    buf.length
  rw [aes_ctr_out, aes_ctr_out, hck]
  have h2 : (xorBytes buf
      (keystream B key.cipher_key (build_iv seq ver) buf.length)).length
      = buf.length := by
    rw [xorBytes_length, hks]
    omega
  rw [h2]
  exact xorBytes_cancel buf _ (by rw [hks])

theorem draw_nonzero_some : ∀ (rng : List Nat) (n : Nat) (rest : List Nat),
    draw_nonzero rng = some (n, rest) → n ≠ 0
  | [], n, rest, h => by simp [draw_nonzero] at h
  | v :: t, n, rest, h => by
      by_cases hv : v % UINT32_MOD = 0
      · simp only [draw_nonzero, if_pos hv] at h
        exact draw_nonzero_some t n rest h
      · simp only [draw_nonzero, if_neg hv, Option.some.injEq,
          Prod.mk.injEq] at h
        exact fun h0 => hv (h.1.trans h0)

theorem must_rotate_false_nonce (REUSE : Nat) (key : rist_key)
    (h : must_rotate REUSE key = false) : key.gre_nonce ≠ 0 := by
  simp only [must_rotate, Bool.or_eq_false_iff, beq_eq_false_iff_ne,
    ne_eq] at h
  exact h.1.1

theorem encrypt_rotate_spec (B : Backend) (REUSE : Nat) (key : rist_key)
    (rng : List Nat) (k1 : rist_key) (rest : List Nat)
    (hrot : encrypt_rotate B REUSE key rng = some (k1, rest)) :
    k1.gre_nonce ≠ 0 ∧ k1.password = key.password ∧
    k1.key_size = key.key_size ∧ k1.key_rotation = key.key_rotation ∧
    k1.bad_count = key.bad_count ∧
    k1.bad_decryption = key.bad_decryption ∧
    (must_rotate REUSE key = true →
      draw_nonzero rng = some (k1.gre_nonce, rest) ∧
      k1.cipher_key = derive_raw_key B k1 ∧ k1.used_times = 0) ∧
    (must_rotate REUSE key = false → k1 = key ∧ rest = rng) := by
  unfold encrypt_rotate at hrot
  by_cases hmr : must_rotate REUSE key = true
  · rw [if_pos hmr] at hrot
    cases hdraw : draw_nonzero rng with
    | none => rw [hdraw] at hrot; exact absurd hrot (by simp)
    | some p =>
        obtain ⟨n, r⟩ := p
        rw [hdraw] at hrot
        simp only [Option.some.injEq, Prod.mk.injEq] at hrot
        obtain ⟨hk1, hrest⟩ := hrot
        have hne : n ≠ 0 := draw_nonzero_some rng n r hdraw
        subst hrest
        subst hk1
        exact ⟨hne, rfl, rfl, rfl, rfl, rfl,
          fun _ => ⟨rfl, rfl, rfl⟩,
          fun hf => absurd hmr (by simp [hf])⟩
  · have hmr' : must_rotate REUSE key = false := by
      simpa using hmr
    rw [if_neg hmr] at hrot
    simp only [Option.some.injEq, Prod.mk.injEq] at hrot
    obtain ⟨hk1, hrest⟩ := hrot
    subst hk1
    subst hrest
    exact ⟨must_rotate_false_nonce REUSE key hmr', rfl, rfl, rfl, rfl, rfl,
      fun ht => absurd ht (by simp [hmr']), fun _ => ⟨rfl, rfl⟩⟩

theorem encrypt_unfold (B : Backend) (REUSE : Nat) (key : rist_key)
    (seq ver : Nat) (inbuf rng : List Nat) (k2 : rist_key)
    (out rest : List Nat)
    (henc : _librist_crypto_psk_encrypt B REUSE key seq ver inbuf rng
      = some (k2, out, rest)) :
    ∃ k1, encrypt_rotate B REUSE key rng = some (k1, rest) ∧
      k2 = (_librist_crypto_psk_aes_ctr B k1 seq ver inbuf).1 ∧
      out = (_librist_crypto_psk_aes_ctr B k1 seq ver inbuf).2 := by
  unfold _librist_crypto_psk_encrypt at henc
  cases hrot : encrypt_rotate B REUSE key rng with
  | none => rw [hrot] at henc; exact absurd henc (by simp)
  | some p =>
      rw [hrot] at henc
      simp only [Option.some.injEq, Prod.mk.injEq] at henc
      obtain ⟨h2, hout, hrest⟩ := henc
      exact ⟨p.1, by rw [← hrest], h2.symm, hout.symm⟩

theorem takeWhile_all_append (p : Nat → Bool) :
    ∀ (a b : List Nat), (∀ x ∈ a, p x = true) →
      (a ++ b).takeWhile p = a ++ b.takeWhile p
  | [], b, _ => rfl
  | x :: a, b, h => by
      have hx : p x = true := h x (by simp)
      simp only [List.cons_append, List.takeWhile_cons, hx, if_pos]
      rw [takeWhile_all_append p a b (fun y hy => h y (by simp [hy]))]

theorem takeWhile_drop (p : Nat → Bool) :
    ∀ (l : List Nat) (k : Nat), k ≤ (l.takeWhile p).length →
      (l.drop k).takeWhile p = (l.takeWhile p).drop k
  | _, 0, _ => by simp
  | [], k + 1, _ => by simp
  | x :: l, k + 1, h => by
      have hx : p x = true := by
        by_contra hx
        rw [List.takeWhile_cons, if_neg hx] at h
        simp at h
      rw [List.takeWhile_cons, if_pos hx] at h ⊢
      simp only [List.drop_succ_cons, List.length_cons] at h ⊢
      exact takeWhile_drop p l k (by omega)

theorem effPassword_all_ne_zero (pw : List Nat) :
    ∀ x ∈ effPassword pw, (fun b => b ≠ 0 : Nat → Bool) x = true := by
  intro x hx
  exact List.mem_takeWhile_imp (l := pw) hx

theorem effPassword_strcpy (dest src : List Nat) :
    effPassword (strcpy_into dest src) = effPassword src := by
  show ((effPassword src ++ [0]) ++
      dest.drop (effPassword src ++ [0]).length).takeWhile _ = _
  rw [List.append_assoc,
    takeWhile_all_append _ (effPassword src) _
      (effPassword_all_ne_zero src)]
  simp [effPassword]

theorem encrypt_cipher_consistent (B : Backend) (REUSE : Nat)
    (sender : rist_key) (seq ver : Nat) (payload rng : List Nat)
    (k2 : rist_key) (ct rest : List Nat)
    (hkd : sender.cipher_key = derive_raw_key B sender)
    (henc : _librist_crypto_psk_encrypt B REUSE sender seq ver payload rng
      = some (k2, ct, rest)) :
    k2.gre_nonce ≠ 0 ∧
    k2.cipher_key = B.kdf (effPassword sender.password)
        (bytes4 k2.gre_nonce) (sender.key_size / 8) ∧
    ct = xorBytes payload
        (keystream B k2.cipher_key (build_iv seq ver) payload.length) := by
  obtain ⟨k1, hrot, hk2, hct⟩ :=
    encrypt_unfold B REUSE sender seq ver payload rng k2 ct rest henc
  obtain ⟨hnz, hpw, hks, _, _, _, htrue, hfalse⟩ :=
    encrypt_rotate_spec B REUSE sender rng k1 rest hrot
  have hk2n : k2.gre_nonce = k1.gre_nonce := by rw [hk2]; rfl
  have hk2c : k2.cipher_key = k1.cipher_key := by rw [hk2]; rfl
  refine ⟨by rw [hk2n]; exact hnz, ?_, ?_⟩
  · by_cases hmr : must_rotate REUSE sender = true
    · obtain ⟨_, hck, _⟩ := htrue hmr
      rw [hk2c, hck]
      unfold derive_raw_key
      rw [hpw, hks, hk2n]
    · obtain ⟨hk1eq, _⟩ := hfalse (by simpa using hmr)
      rw [hk2c, hk1eq, hkd]
      unfold derive_raw_key
      rw [hk2n, hk1eq]
  · rw [hct, aes_ctr_out, hk2c]

theorem decrypt_transform (B : Backend) (REUSE : Nat) (key : rist_key)
    (nonce seq ver : Nat) (inbuf out0 : List Nat) (hn : nonce ≠ 0)
    (hgate : (decrypt_update_key B key nonce).used_times ≤ REUSE) :
    _librist_crypto_psk_decrypt B REUSE key nonce seq ver inbuf out0 =
      _librist_crypto_psk_aes_ctr B (decrypt_update_key B key nonce)
        seq ver inbuf := by
  unfold _librist_crypto_psk_decrypt
  rw [if_neg hn]
  show (if (decrypt_update_key B key nonce).used_times > REUSE
      then (decrypt_update_key B key nonce, out0)
      else _librist_crypto_psk_aes_ctr B (decrypt_update_key B key nonce)
        seq ver inbuf) = _
  rw [if_neg (by omega)]

/-! ### Concrete objects used to evaluate the theorems -/

/-- A concrete executable backend instance. -/
def Bc : Backend :=
  ⟨fun p s l => p ++ s ++ [l],
   fun ck blk => List.replicate 16 (ck.length + blk.length)⟩

theorem Bc_enc_length : ∀ ck blk, (Bc.enc ck blk).length = 16 :=
  fun _ _ => rfl

/-- A concrete sender context with a derived key for nonce 7. -/
def senderC : rist_key :=
  { password := [104, 105, 0], key_size := 128, key_rotation := 0,
    gre_nonce := 7, used_times := 0, bad_decryption := false, bad_count := 0,
    cipher_key := [104, 105, 7, 0, 0, 0, 16] }

/-- A concrete fresh receiver context sharing `senderC`'s password. -/
def recvC : rist_key :=
  { password := [104, 105, 0], key_size := 128, key_rotation := 0,
    gre_nonce := 0, used_times := 0, bad_decryption := false, bad_count := 0,
    cipher_key := [] }

/-- A concrete fresh context with all-zero counters. -/
def k0C : rist_key :=
  { password := [104, 105, 0], key_size := 128, key_rotation := 0,
    gre_nonce := 0, used_times := 0, bad_decryption := false, bad_count := 0,
    cipher_key := [] }

/-! ### Claim theorems -/

/-- C1: for a context with a derived key, applying the CTR transform twice
with the same derived key, seq and gre_version returns the original payload;
and if a sender encrypts a payload, a receiver with the same password and
key_size that decrypts the ciphertext with the sender's resulting gre_nonce
and the same seq and gre_version recovers the original bytes exactly. -/
theorem psk_ctr_round_trip (B : Backend)
    (hB : ∀ ck blk, (B.enc ck blk).length = 16) (REUSE : Nat)
    (sender recv key : rist_key) (seq ver : Nat)
    (payload buf out0 rng : List Nat) (k2 : rist_key) (ct rest : List Nat)
    (hnz : sender.gre_nonce ≠ 0)
    (hkd : sender.cipher_key = derive_raw_key B sender)
    (henc : _librist_crypto_psk_encrypt B REUSE sender seq ver payload rng
      = some (k2, ct, rest))
    (hpw : effPassword recv.password = effPassword sender.password)
    (hks : recv.key_size = sender.key_size)
    (hrn : recv.gre_nonce ≠ k2.gre_nonce) :
    (_librist_crypto_psk_aes_ctr B
        ((_librist_crypto_psk_aes_ctr B key seq ver buf).1) seq ver
        ((_librist_crypto_psk_aes_ctr B key seq ver buf).2)).2 = buf
    ∧ (_librist_crypto_psk_decrypt B REUSE recv k2.gre_nonce seq ver ct
        out0).2 = payload := by
  obtain ⟨hn2, hck, hct⟩ := encrypt_cipher_consistent B REUSE sender seq ver
    payload rng k2 ct rest hkd henc
  constructor
  · exact aes_ctr_self_inverse B hB key _ rfl seq ver buf
  · have hupdeq : decrypt_update_key B recv k2.gre_nonce =
        { recv with
          gre_nonce := k2.gre_nonce
          cipher_key := (B.kdf (effPassword recv.password)
            (bytes4 k2.gre_nonce) (recv.key_size / 8))
          used_times := 0
          bad_decryption := false
          bad_count := 0 } := by
      unfold decrypt_update_key
      rw [if_pos (Ne.symm hrn)]
      rfl
    have hctlen : ct.length = payload.length := by
      rw [hct, xorBytes_length, keystream_length B hB]
      omega
    rw [decrypt_transform B REUSE recv k2.gre_nonce seq ver ct out0 hn2
      (by rw [hupdeq]; exact Nat.zero_le _)]
    rw [aes_ctr_out, hupdeq]
    show xorBytes ct (keystream B (B.kdf (effPassword recv.password)
      (bytes4 k2.gre_nonce) (recv.key_size / 8)) (build_iv seq ver)
      ct.length) = payload
    rw [hpw, hks, ← hck, hctlen, hct]
    exact xorBytes_cancel payload _ (by rw [keystream_length B hB])

/-- Witness for C1: `senderC` encrypts `[1, 2, 3]` under seq 1, version 0
giving ciphertext `[22, 21, 20]`; the fresh `recvC` decrypting with the
sender's nonce recovers `[1, 2, 3]`, and the double transform fixes
`[5, 6]`. -/
theorem psk_ctr_round_trip_witness :
    (_librist_crypto_psk_aes_ctr Bc
        ((_librist_crypto_psk_aes_ctr Bc senderC 1 0 [5, 6]).1) 1 0
        ((_librist_crypto_psk_aes_ctr Bc senderC 1 0 [5, 6]).2)).2 = [5, 6]
    ∧ (_librist_crypto_psk_decrypt Bc 10 recvC
        ({ senderC with used_times := 1 } : rist_key).gre_nonce 1 0
        [22, 21, 20] [9]).2 = [1, 2, 3] :=
  psk_ctr_round_trip Bc Bc_enc_length 10 senderC recvC senderC 1 0 [1, 2, 3]
    [5, 6] [9] [] { senderC with used_times := 1 } [22, 21, 20] []
    (by decide) rfl (by decide) rfl rfl (by decide)

/-- C2: the 16-byte IV is all zero except that for `gre_version = 1` the
four bytes of `seq` occupy bytes 0 to 3, and for any other `gre_version`
they occupy bytes 12 to 15. -/
theorem build_iv_layout (seq_nbe gre_version : Nat) :
    (build_iv seq_nbe gre_version).length = 16 ∧
    build_iv seq_nbe gre_version =
      if gre_version = 1 then bytes4 seq_nbe ++ List.replicate 12 0
      else List.replicate 12 0 ++ bytes4 seq_nbe := by
  unfold build_iv bytes4
  by_cases h : gre_version = 1 <;> simp [h]

/-- C3: encrypt draws a new nonce and re-derives exactly when gre_nonce = 0,
or used_times + 1 exceeds the hard cap, or key_rotation > 0 and used_times ≥
key_rotation; every nonce the encrypt path assigns is non-zero, and the CTR
transform always runs on a state whose gre_nonce is non-zero. -/
theorem encrypt_rotation_policy (B : Backend) (REUSE : Nat) (key : rist_key)
    (seq ver : Nat) (inbuf rng : List Nat) (k1 : rist_key) (rest : List Nat)
    (hu : key.used_times + 1 < UINT32_MOD)
    (hrot : encrypt_rotate B REUSE key rng = some (k1, rest)) :
    (must_rotate REUSE key = true ↔
      (key.gre_nonce = 0 ∨ REUSE < key.used_times + 1 ∨
        (0 < key.key_rotation ∧ key.key_rotation ≤ key.used_times)))
    ∧ k1.gre_nonce ≠ 0
    ∧ _librist_crypto_psk_encrypt B REUSE key seq ver inbuf rng =
        some ((_librist_crypto_psk_aes_ctr B k1 seq ver inbuf).1,
          (_librist_crypto_psk_aes_ctr B k1 seq ver inbuf).2, rest)
    ∧ (must_rotate REUSE key = true →
        draw_nonzero rng = some (k1.gre_nonce, rest) ∧
        k1.cipher_key = derive_raw_key B k1 ∧ k1.used_times = 0)
    ∧ (must_rotate REUSE key = false → k1 = key ∧ rest = rng) := by
  obtain ⟨hnz, _, _, _, _, _, htrue, hfalse⟩ :=
    encrypt_rotate_spec B REUSE key rng k1 rest hrot
  refine ⟨?_, hnz, ?_, htrue, hfalse⟩
  · simp [must_rotate, Nat.mod_eq_of_lt hu]
    tauto
  · unfold _librist_crypto_psk_encrypt
    rw [hrot]

/-- The rotated state of the C3 witness: `k0C` after drawing nonce 5 and
re-deriving under `Bc`. -/
def k1C3 : rist_key :=
  { password := [104, 105, 0], key_size := 128, key_rotation := 0,
    gre_nonce := 5, used_times := 0, bad_decryption := false, bad_count := 0,
    cipher_key := [104, 105, 5, 0, 0, 0, 16] }

/-- Witness for C3: the fresh context `k0C` (gre_nonce 0) forces a rotation;
the stream `[0, 5]` has its zero draw rejected and 5 assigned. -/
theorem encrypt_rotation_policy_witness :
    (must_rotate 10 k0C = true ↔
      (k0C.gre_nonce = 0 ∨ 10 < k0C.used_times + 1 ∨
        (0 < k0C.key_rotation ∧ k0C.key_rotation ≤ k0C.used_times)))
    ∧ k1C3.gre_nonce ≠ 0
    ∧ _librist_crypto_psk_encrypt Bc 10 k0C 1 0 [1, 2, 3] [0, 5] =
        some ((_librist_crypto_psk_aes_ctr Bc k1C3 1 0 [1, 2, 3]).1,
          (_librist_crypto_psk_aes_ctr Bc k1C3 1 0 [1, 2, 3]).2, [])
    ∧ (must_rotate 10 k0C = true →
        draw_nonzero [0, 5] = some (k1C3.gre_nonce, []) ∧
        k1C3.cipher_key = derive_raw_key Bc k1C3 ∧ k1C3.used_times = 0)
    ∧ (must_rotate 10 k0C = false → k1C3 = k0C ∧ ([] : List Nat) = [0, 5]) :=
  encrypt_rotation_policy Bc 10 k0C 1 0 [1, 2, 3] [0, 5] k1C3 []
    (by decide) (by decide)

/-- C4 counterexample: with hard cap 2, three decrypts under the same
announced nonce starting from the fresh context `k0C` leave used_times = 3,
which violates the claimed invariant used_times ≤ cap. -/
theorem used_times_cap_cx :
    ¬ (((_librist_crypto_psk_decrypt Bc 2
        ((_librist_crypto_psk_decrypt Bc 2
          ((_librist_crypto_psk_decrypt Bc 2 k0C 5 1 0 [1] [9]).1)
          5 1 0 [1] [9]).1) 5 1 0 [1] [9]).1).used_times ≤ 2) := by decide

/-- C4 (amended): every successful encrypt leaves used_times ≤ cap (for a
cap ≥ 1), but decrypt only maintains the weaker bound used_times ≤ cap + 1:
a decrypt entered at exactly the cap still transforms and advances the
counter to cap + 1. -/
theorem used_times_cap (B : Backend) (REUSE : Nat) (ekey dkey : rist_key)
    (seq ver nonce : Nat) (inbuf rng out0 : List Nat) (k2 : rist_key)
    (out rest : List Nat)
    (hR : 1 ≤ REUSE) (hW : REUSE + 2 ≤ UINT32_MOD)
    (henc : _librist_crypto_psk_encrypt B REUSE ekey seq ver inbuf rng
      = some (k2, out, rest))
    (hdu : dkey.used_times ≤ REUSE + 1) :
    k2.used_times ≤ REUSE ∧
    ((_librist_crypto_psk_decrypt B REUSE dkey nonce seq ver inbuf
      out0).1).used_times ≤ REUSE + 1 := by
  have hU : UINT32_MOD = 4294967296 := rfl
  constructor
  · obtain ⟨k1, hrot, hk2, _⟩ :=
      encrypt_unfold B REUSE ekey seq ver inbuf rng k2 out rest henc
    obtain ⟨_, _, _, _, _, _, htrue, hfalse⟩ :=
      encrypt_rotate_spec B REUSE ekey rng k1 rest hrot
    have hk2u : k2.used_times = (k1.used_times + 1) % UINT32_MOD := by
      rw [hk2]; rfl
    by_cases hmr : must_rotate REUSE ekey = true
    · obtain ⟨_, _, hu0⟩ := htrue hmr
      rw [hk2u, hu0, Nat.mod_eq_of_lt (by omega)]
      omega
    · obtain ⟨hk1eq, _⟩ := hfalse (by simpa using hmr)
      have hmr' : must_rotate REUSE ekey = false := by simpa using hmr
      simp only [must_rotate, Bool.or_eq_false_iff, Bool.and_eq_false_iff,
        decide_eq_false_iff_not, not_lt, beq_eq_false_iff_ne] at hmr'
      rw [hk2u, hk1eq]
      exact hmr'.1.2
  · unfold _librist_crypto_psk_decrypt
    by_cases h0 : nonce = 0
    · rw [if_pos h0]
      exact hdu
    · rw [if_neg h0]
      have hku : (decrypt_update_key B dkey nonce).used_times ≤ REUSE + 1 := by
        unfold decrypt_update_key
        by_cases hne : nonce ≠ dkey.gre_nonce
        · rw [if_pos hne]
          exact Nat.zero_le _
        · rw [if_neg hne]
          exact hdu
      show (if (decrypt_update_key B dkey nonce).used_times > REUSE
          then (decrypt_update_key B dkey nonce, out0)
          else _librist_crypto_psk_aes_ctr B (decrypt_update_key B dkey nonce)
            seq ver inbuf).1.used_times ≤ REUSE + 1
      by_cases hgt : (decrypt_update_key B dkey nonce).used_times > REUSE
      · rw [if_pos hgt]
        exact hku
      · rw [if_neg hgt]
        rw [aes_ctr_state]
        show ((decrypt_update_key B dkey nonce).used_times + 1) % UINT32_MOD
          ≤ REUSE + 1
        rw [Nat.mod_eq_of_lt (by omega)]
        omega

/-- Witness for C4: cap 2, `senderC` encrypting without rotation reaches
used_times 1 ≤ 2; the fresh `k0C` decrypting stays within 3. -/
theorem used_times_cap_witness :
    ({ senderC with used_times := 1 } : rist_key).used_times ≤ 2 ∧
    ((_librist_crypto_psk_decrypt Bc 2 k0C 5 1 0 [1, 2, 3]
      [9]).1).used_times ≤ 3 :=
  used_times_cap Bc 2 senderC k0C 1 0 5 [1, 2, 3] [] [9]
    { senderC with used_times := 1 } [22, 21, 20] [] (by decide) (by decide)
    (by decide) (by decide)

/-- A concrete context whose used_times 3 is past the hard cap 2. -/
def kCapC : rist_key :=
  { password := [104, 105, 0], key_size := 128, key_rotation := 0,
    gre_nonce := 5, used_times := 3, bad_decryption := false, bad_count := 0,
    cipher_key := [104, 105, 5, 0, 0, 0, 16] }

/-- C5 counterexample: with hard cap 2 and used_times = 3 past the cap, a
decrypt that announces a different nonce 6 re-derives and does transform the
payload: outbuf is written and used_times changes, contrary to the claim
that a decrypt past the cap never transforms. -/
theorem decrypt_silent_skip_cx :
    (_librist_crypto_psk_decrypt Bc 2 kCapC 6 1 0 [1, 2] [9, 9]).2 ≠ [9, 9]
    ∧ ((_librist_crypto_psk_decrypt Bc 2 kCapC 6 1 0 [1, 2]
      [9, 9]).1).used_times = 1 := by decide

/-- C5 (amended): decrypt performs no transform and leaves the state and
outbuf untouched when the announced nonce is 0, or when the announced nonce
equals the current one and used_times is past the hard cap; no error is
reported (the function returns normally).  When the announced nonce differs
from the current one, the past-the-cap state is re-derived and the payload
is transformed. -/
theorem decrypt_silent_skip (B : Backend) (REUSE : Nat) (key : rist_key)
    (nonce seq ver : Nat) (inbuf out0 : List Nat)
    (h : nonce = 0 ∨ (nonce = key.gre_nonce ∧ REUSE < key.used_times)) :
    _librist_crypto_psk_decrypt B REUSE key nonce seq ver inbuf out0
      = (key, out0) := by
  unfold _librist_crypto_psk_decrypt
  rcases h with h0 | ⟨heq, hcap⟩
  · rw [if_pos h0]
  · by_cases h0 : nonce = 0
    · rw [if_pos h0]
    · rw [if_neg h0]
      have hupd : decrypt_update_key B key nonce = key := by
        unfold decrypt_update_key
        rw [if_neg (fun hne => hne heq)]
      show (if (decrypt_update_key B key nonce).used_times > REUSE
          then (decrypt_update_key B key nonce, out0)
          else _librist_crypto_psk_aes_ctr B (decrypt_update_key B key nonce)
            seq ver inbuf) = (key, out0)
      rw [hupd, if_pos hcap]

/-- Witness for C5 (amended): `kCapC` sits at used_times 3 past the cap 2;
a decrypt announcing its own nonce 5 changes nothing. -/
theorem decrypt_silent_skip_witness :
    _librist_crypto_psk_decrypt Bc 2 kCapC 5 1 0 [1, 2] [9, 9]
      = (kCapC, [9, 9]) :=
  decrypt_silent_skip Bc 2 kCapC 5 1 0 [1, 2] [9, 9]
    (Or.inr ⟨rfl, by decide⟩)

/-- A concrete context with non-trivial diagnostic flags. -/
def kBadC : rist_key :=
  { password := [104, 105, 0], key_size := 128, key_rotation := 0,
    gre_nonce := 5, used_times := 1, bad_decryption := true, bad_count := 3,
    cipher_key := [104, 105, 5, 0, 0, 0, 16] }

/-- C6 counterexample: set_passphrase triggers a key derivation, yet right
after it bad_count is still 3 and bad_decryption still true — the claim that
every derivation leaves bad_decryption = false and bad_count = 0 fails. -/
theorem derivation_resets_cx :
    ((_librist_crypto_psk_set_passphrase Bc kBadC [120] [4]).map
      (fun r => (r.1.bad_count, r.1.bad_decryption))) = some (3, true)
    ∧ (3, true) ≠ ((0 : Nat), false) := by decide

/-- C6 (amended): derivation itself resets only used_times to 0; on the
decrypt path (nonce ≠ 0) re-derivation together with the flag clear happens
exactly when the announced nonce differs from gre_nonce, while encrypt-side
rotation and set_passphrase leave bad_decryption and bad_count unchanged. -/
theorem derivation_resets (B : Backend) (REUSE : Nat) (key : rist_key)
    (nonce : Nat) (pp rng : List Nat) (k1 k2 : rist_key)
    (rest rest2 : List Nat) (st : Int)
    (hn : nonce ≠ 0)
    (hrot : encrypt_rotate B REUSE key rng = some (k1, rest))
    (hsp : _librist_crypto_psk_set_passphrase B key pp rng
      = some (k2, st, rest2)) :
    (_librist_crypto_aes_key B key).used_times = 0
    ∧ (nonce ≠ key.gre_nonce →
        (decrypt_update_key B key nonce).bad_count = 0
        ∧ (decrypt_update_key B key nonce).bad_decryption = false
        ∧ (decrypt_update_key B key nonce).used_times = 0
        ∧ (decrypt_update_key B key nonce).gre_nonce = nonce
        ∧ (decrypt_update_key B key nonce).cipher_key
            = derive_raw_key B { key with gre_nonce := nonce })
    ∧ (nonce = key.gre_nonce → decrypt_update_key B key nonce = key)
    ∧ k1.bad_count = key.bad_count
    ∧ k1.bad_decryption = key.bad_decryption
    ∧ k2.bad_count = key.bad_count
    ∧ k2.bad_decryption = key.bad_decryption := by
  obtain ⟨_, _, _, _, hbc1, hbd1, _, _⟩ :=
    encrypt_rotate_spec B REUSE key rng k1 rest hrot
  have hflags2 : k2.bad_count = key.bad_count
      ∧ k2.bad_decryption = key.bad_decryption := by
    unfold _librist_crypto_psk_set_passphrase at hsp
    by_cases hlong : pp.length > PASSWORD_BUFSIZE - 1
    · rw [if_pos hlong] at hsp
      simp only [Option.some.injEq, Prod.mk.injEq] at hsp
      rw [← hsp.1]
      exact ⟨rfl, rfl⟩
    · rw [if_neg hlong] at hsp
      cases hdraw : draw_nonzero rng with
      | none => rw [hdraw] at hsp; exact absurd hsp (by simp)
      | some p =>
          rw [hdraw] at hsp
          simp only [Option.some.injEq, Prod.mk.injEq] at hsp
          rw [← hsp.1]
          exact ⟨rfl, rfl⟩
  refine ⟨rfl, ?_, ?_, hbc1, hbd1, hflags2.1, hflags2.2⟩
  · intro hne
    unfold decrypt_update_key
    rw [if_pos hne]
    exact ⟨rfl, rfl, rfl, rfl, rfl⟩
  · intro heq
    unfold decrypt_update_key
    rw [if_neg (fun hne => hne heq)]

/-- Witness for C6 (amended): `kBadC` with announced nonce 6 ≠ 5; both the
encrypt rotation (no rotation needed, state passed through) and a
set_passphrase keep bad_count = 3. -/
theorem derivation_resets_witness :
    (_librist_crypto_aes_key Bc kBadC).used_times = 0
    ∧ ((6 : Nat) ≠ kBadC.gre_nonce →
        (decrypt_update_key Bc kBadC 6).bad_count = 0
        ∧ (decrypt_update_key Bc kBadC 6).bad_decryption = false
        ∧ (decrypt_update_key Bc kBadC 6).used_times = 0
        ∧ (decrypt_update_key Bc kBadC 6).gre_nonce = 6
        ∧ (decrypt_update_key Bc kBadC 6).cipher_key
            = derive_raw_key Bc { kBadC with gre_nonce := 6 })
    ∧ ((6 : Nat) = kBadC.gre_nonce → decrypt_update_key Bc kBadC 6 = kBadC)
    ∧ kBadC.bad_count = kBadC.bad_count
    ∧ kBadC.bad_decryption = kBadC.bad_decryption
    ∧ ((_librist_crypto_aes_key Bc { kBadC with
        password := [120, 105, 0]
        gre_nonce := 4 }) : rist_key).bad_count = kBadC.bad_count
    ∧ ((_librist_crypto_aes_key Bc { kBadC with
        password := [120, 105, 0]
        gre_nonce := 4 }) : rist_key).bad_decryption = kBadC.bad_decryption :=
  derivation_resets Bc 10 kBadC 6 [120] [4] kBadC
    (_librist_crypto_aes_key Bc { kBadC with
      password := [120, 105, 0]
      gre_nonce := 4 }) [4] [] 0 (by decide) (by decide) (by decide)

/-- C7: evaluating init at the claim's failing input: key_size 64 is not in
{128, 192, 256}, yet init stores it and returns 0 (success); the code
performs no validation at all. -/
theorem init_accepts_invalid_key_size :
    (_librist_crypto_psk_rist_key_init k0C 64 0 [104, 105]).2 = 0
    ∧ ((_librist_crypto_psk_rist_key_init k0C 64 0
      [104, 105]).1).key_size = 64 := by decide

/-- A concrete destination context with stale non-zero fields. -/
def dstC : rist_key :=
  { password := [97, 0, 0], key_size := 256, key_rotation := 9,
    gre_nonce := 7, used_times := 9, bad_decryption := true, bad_count := 2,
    cipher_key := [1, 2] }

/-- C8 counterexample: cloning into a destination whose gre_nonce is 7 and
used_times is 9 leaves both untouched — the clone does not start with
gre_nonce = 0 and used_times = 0 as claimed. -/
theorem clone_fields_cx :
    ((_librist_crypto_psk_rist_key_clone senderC dstC).1).gre_nonce ≠ 0
    ∧ ((_librist_crypto_psk_rist_key_clone senderC dstC).1).used_times ≠ 0 := by
  decide

/-- C8 (amended): clone copies the source's password (same effective
password), key_size and key_rotation into the destination and installs a
freshly initialised, independent cipher state, returning success; but it
leaves the destination's gre_nonce and used_times unchanged (they are 0 only
when the destination was zero-initialised).  The clone is a distinct value,
so mutating either context afterwards cannot affect the other. -/
theorem clone_fields (key_in key_out : rist_key) :
    (_librist_crypto_psk_rist_key_clone key_in key_out).2 = 0
    ∧ ((_librist_crypto_psk_rist_key_clone key_in key_out).1).password
        = strcpy_into key_out.password key_in.password
    ∧ effPassword
        ((_librist_crypto_psk_rist_key_clone key_in key_out).1).password
        = effPassword key_in.password
    ∧ ((_librist_crypto_psk_rist_key_clone key_in key_out).1).key_size
        = key_in.key_size
    ∧ ((_librist_crypto_psk_rist_key_clone key_in key_out).1).key_rotation
        = key_in.key_rotation
    ∧ ((_librist_crypto_psk_rist_key_clone key_in key_out).1).cipher_key = []
    ∧ ((_librist_crypto_psk_rist_key_clone key_in key_out).1).gre_nonce
        = key_out.gre_nonce
    ∧ ((_librist_crypto_psk_rist_key_clone key_in key_out).1).used_times
        = key_out.used_times := by
  refine ⟨rfl, rfl, ?_, rfl, rfl, rfl, rfl, rfl⟩
  exact effPassword_strcpy key_out.password key_in.password

/-- C9: set_passphrase fails (returns -1, touching nothing) exactly when the
new passphrase exceeds the stored-password bound; on success it copies the
new bytes over the head of the password buffer, assigns a freshly drawn
non-zero nonce and re-derives the key immediately, returning 0. -/
theorem set_passphrase_spec (B : Backend) (key : rist_key)
    (pp rng : List Nat) (n : Nat) (rest : List Nat)
    (hdraw : draw_nonzero rng = some (n, rest)) :
    (PASSWORD_BUFSIZE - 1 < pp.length →
      _librist_crypto_psk_set_passphrase B key pp rng = some (key, -1, rng))
    ∧ (pp.length ≤ PASSWORD_BUFSIZE - 1 →
      n ≠ 0 ∧
      _librist_crypto_psk_set_passphrase B key pp rng =
        some ({ key with
          password := (pp ++ key.password.drop pp.length)
          gre_nonce := n
          used_times := 0
          cipher_key := (B.kdf
            (effPassword (pp ++ key.password.drop pp.length)) (bytes4 n)
            (key.key_size / 8)) }, 0, rest)) := by
  constructor
  · intro hlong
    unfold _librist_crypto_psk_set_passphrase
    rw [if_pos hlong]
  · intro hok
    refine ⟨draw_nonzero_some rng n rest hdraw, ?_⟩
    unfold _librist_crypto_psk_set_passphrase
    rw [if_neg (by omega), hdraw]
    rfl

/-- Witness for C9: `kBadC` with new passphrase byte `[120]` and random
stream `[4]`. -/
theorem set_passphrase_spec_witness :
    (PASSWORD_BUFSIZE - 1 < ([120] : List Nat).length →
      _librist_crypto_psk_set_passphrase Bc kBadC [120] [4]
        = some (kBadC, -1, [4]))
    ∧ (([120] : List Nat).length ≤ PASSWORD_BUFSIZE - 1 →
      (4 : Nat) ≠ 0 ∧
      _librist_crypto_psk_set_passphrase Bc kBadC [120] [4] =
        some ({ kBadC with
          password := (([120] : List Nat) ++ kBadC.password.drop 1)
          gre_nonce := 4
          used_times := 0
          cipher_key := (Bc.kdf
            (effPassword (([120] : List Nat) ++ kBadC.password.drop 1))
            (bytes4 4) (kBadC.key_size / 8)) }, 0, [])) :=
  set_passphrase_spec Bc kBadC [120] [4] 4 [] (by decide)

/-- C10: a successful set_passphrase with a passphrase strictly shorter than
the currently stored password leaves the old tail in place with no NUL
terminator written, so the effective password becomes the new bytes followed
by the tail of the old password up to its old terminator — not the new
passphrase alone — and the key just derived (and any later derivation) uses
that combined byte string. -/
theorem set_passphrase_stale_tail (B : Backend) (key : rist_key)
    (pp rng : List Nat) (k2 : rist_key) (st : Int) (rest2 : List Nat)
    (hlen : pp.length ≤ PASSWORD_BUFSIZE - 1)
    (hnz : ∀ b ∈ pp, b ≠ 0)
    (hshort : pp.length < (effPassword key.password).length)
    (hsp : _librist_crypto_psk_set_passphrase B key pp rng
      = some (k2, st, rest2)) :
    effPassword k2.password
      = pp ++ (effPassword key.password).drop pp.length
    ∧ effPassword k2.password ≠ pp
    ∧ k2.cipher_key
      = B.kdf (pp ++ (effPassword key.password).drop pp.length)
          (bytes4 k2.gre_nonce) (key.key_size / 8) := by
  have heff : effPassword (pp ++ key.password.drop pp.length)
      = pp ++ (effPassword key.password).drop pp.length := by
    unfold effPassword
    rw [takeWhile_all_append _ pp _ (fun x hx => by simpa using hnz x hx),
      takeWhile_drop _ key.password pp.length (le_of_lt hshort)]
  unfold _librist_crypto_psk_set_passphrase at hsp
  rw [if_neg (by omega)] at hsp
  cases hdraw : draw_nonzero rng with
  | none => rw [hdraw] at hsp; exact absurd hsp (by simp)
  | some p =>
      rw [hdraw] at hsp
      simp only [Option.some.injEq, Prod.mk.injEq] at hsp
      obtain ⟨hk2, _, _⟩ := hsp
      have hpw2 : k2.password = pp ++ key.password.drop pp.length := by
        rw [← hk2]
        rfl
      have hck : k2.cipher_key
          = B.kdf (effPassword (pp ++ key.password.drop pp.length))
            (bytes4 k2.gre_nonce) (key.key_size / 8) := by
        rw [← hk2]
        rfl
      refine ⟨by rw [hpw2, heff], ?_, by rw [hck, heff]⟩
      rw [hpw2, heff]
      intro hcontra
      have hlencontra := congrArg List.length hcontra
      simp only [List.length_append, List.length_drop] at hlencontra
      omega

/-- The result state of the C10 witness: `senderC` (stored password bytes
104 105 0) after set_passphrase with the single byte 120 and nonce 4. -/
def k2C10 : rist_key :=
  { password := [120, 105, 0], key_size := 128, key_rotation := 0,
    gre_nonce := 4, used_times := 0, bad_decryption := false, bad_count := 0,
    cipher_key := [120, 105, 4, 0, 0, 0, 16] }

/-- Witness for C10: shortening the password of `senderC` (effective bytes
104 105) to the single byte 120 yields the effective password 120 105 — the
old tail byte 105 leaks in — and the derived key uses it. -/
theorem set_passphrase_stale_tail_witness :
    effPassword k2C10.password
      = ([120] : List Nat) ++ (effPassword senderC.password).drop 1
    ∧ effPassword k2C10.password ≠ [120]
    ∧ k2C10.cipher_key
      = Bc.kdf (([120] : List Nat) ++ (effPassword senderC.password).drop 1)
          (bytes4 k2C10.gre_nonce) (senderC.key_size / 8) :=
  set_passphrase_stale_tail Bc senderC [120] [4] k2C10 0 []
    (by decide) (by decide) (by decide) (by decide)

end LibristPSK
